import Mathlib

/-!
Verification of the FB-notifier listing pipeline
(`src/improved_fb_notifier_images.js`), shallowly embedded in Lean 4.
Strings are Lean `String`s, JS numbers are modelled as `ℚ`, JS `undefined`
as `Option.none`, and the mutable seen-id `Set` as a `List (Option String)`
in insertion order.  All definitions are translated from the JavaScript
source; spec-side definitions used to compare against the specification
text are clearly marked.
-/

namespace FBNotifier

/-! ## JavaScript string primitives -/

/-- Whitespace test used by the embeddings of `String.prototype.trim` and the
`\s` regex class (approximated by Unicode whitespace). -/
def isJsWs (c : Char) : Bool := c.isWhitespace

/-- Embedding of `String.prototype.trim`: drop leading and trailing
whitespace. -/
def jsTrim (s : String) : String :=
  String.mk (((s.data.dropWhile isJsWs).reverse.dropWhile isJsWs).reverse)

/-- Embedding of `String.prototype.toLowerCase` (character-wise). -/
def jsToLower (s : String) : String := String.mk (s.data.map Char.toLower)

/-- Does `l` start with `pre`? Helper for the substring test. -/
def listStartsWith : List Char → List Char → Bool
  | _, [] => true
  | [], _ :: _ => false
  | a :: as, b :: bs => a == b && listStartsWith as bs

/-- Does `l` contain `sub` as a contiguous sublist? -/
def listHasSub : List Char → List Char → Bool
  | [], sub => sub.isEmpty
  | a :: as, sub => listStartsWith (a :: as) sub || listHasSub as sub

/-- Embedding of `hay.includes(needle)` for JS strings. -/
def jsIncludes (hay needle : String) : Bool := listHasSub hay.data needle.data

/-- Embedding of `Array.prototype.join(sep)` for an array of strings. -/
def joinWith (sep : String) : List String → String
  | [] => ""
  | [x] => x
  | x :: y :: xs => x ++ sep ++ joinWith sep (y :: xs)

/-! ## Numeric price parsing

`parseFloat` is modelled on the strings it is actually applied to in the
source: strings of ASCII digits and dots (everything else has been stripped
beforehand).  On those, `parseFloat` reads the longest prefix of the shape
`digits* (. digits*)?` containing at least one digit, and returns `NaN`
(modelled as `none`) when there is none. -/

def digitVal (c : Char) : Nat := c.toNat - '0'.toNat

def natOfDigits (l : List Char) : Nat := l.foldl (fun n c => 10 * n + digitVal c) 0

/-- Model of `parseFloat` restricted to digit-and-dot strings; `none` models
`NaN`.  The value of `ip.fp` is the rational `(ip * 10^|fp| + fp) / 10^|fp|`,
built with `mkRat` (the reducible smart constructor) rather than `+`/`/` so
that concrete instances evaluate by kernel reduction. -/
def parseFloatQ (l : List Char) : Option ℚ :=
  let ip := l.takeWhile Char.isDigit
  let rest := l.dropWhile Char.isDigit
  match rest with
  | '.' :: rest2 =>
    let fp := rest2.takeWhile Char.isDigit
    if ip.isEmpty && fp.isEmpty then none
    else some (mkRat (natOfDigits ip * 10 ^ fp.length + natOfDigits fp) (10 ^ fp.length))
  | _ => if ip.isEmpty then none else some (natOfDigits ip)

/-- Embedding of `price.replace(/[^0-9.]/g, '')`. -/
def cleanChars (s : String) : List Char := s.data.filter (fun c => c.isDigit || c == '.')

/-- The numeric-price computation inlined in `scrapeTerm`
(`improved_fb_notifier_images.js`, lines 236-241): strip every character
that is not a digit or a dot, return 0 on an empty remainder, parse the
remainder as a float, and return 0 when the parse yields `NaN`. -/
def parsePrice (s : String) : ℚ :=
  let clean := cleanChars s
  if decide (clean.length = 0) then 0
  else
    match parseFloatQ clean with
    | none => 0
    | some q => q

/-! ## `Number.prototype.toFixed(2)` and `* 0.5`

Modelled for the non-negative rationals that reach them in the source
(`num > 0` and `avg > 0` guards precede every call): `toFixed2` rounds to
the nearest multiple of 1/100, ties upward, and prints with exactly two
decimals; `halfQ` is multiplication by 0.5.  Both are computed on the
numerator/denominator representation so that concrete instances evaluate
by kernel reduction (`Rat.mul`/`Rat.add` are `@[irreducible]`); the lemma
`halfQ_eq_mul_half` below identifies `halfQ q` with `q * (1 / 2)`. -/

/-- `q * 0.5`, built with `mkRat`. -/
def halfQ (q : ℚ) : ℚ := mkRat q.num (2 * q.den)

/-- `(·).toFixed(2)` for a non-negative rational: the rounded numerator
`m = ⌊q * 100 + 1 / 2⌋ = (200 * q.num + q.den) / (2 * q.den)` over natural
division, printed as integer part, a dot, and two decimal digits. -/
def toFixed2 (q : ℚ) : String :=
  let m := (200 * q.num.toNat + q.den) / (2 * q.den)
  Nat.repr (m / 100) ++ "." ++ (if m % 100 < 10 then "0" else "") ++ Nat.repr (m % 100)

/-! ## Category-name tokenization

`estimateResaleValue` splits each (lowercased) category name with
`split(/\s*\/\s*|\s+>/g)`.  The two regex alternatives are embedded
directly; the scanner walks the string left to right trying the
alternatives in order at each position, exactly as the regex engine does.
A fuel argument (initialised to the string length, an upper bound on the
number of steps) keeps the recursion structural. -/

/-- Match of the first alternative `\s*\/\s*` at the head of `l`; returns the
remainder after the (greedy) match. -/
def matchSlashSep (l : List Char) : Option (List Char) :=
  match l.dropWhile isJsWs with
  | '/' :: r => some (r.dropWhile isJsWs)
  | _ => none

/-- Match of the second alternative `\s+>` at the head of `l`. -/
def matchGtSep (l : List Char) : Option (List Char) :=
  match l with
  | c :: rest =>
    if isJsWs c then
      match rest.dropWhile isJsWs with
      | '>' :: r => some r
      | _ => none
    else none
  | [] => none

def jsSplitAux : Nat → List Char → List Char → List String
  | _, acc, [] => [String.mk acc.reverse]
  | 0, acc, l => [String.mk (acc.reverse ++ l)]
  | fuel + 1, acc, c :: rest =>
    match matchSlashSep (c :: rest) with
    | some r => String.mk acc.reverse :: jsSplitAux fuel [] r
    | none =>
      match matchGtSep (c :: rest) with
      | some r => String.mk acc.reverse :: jsSplitAux fuel [] r
      | none => jsSplitAux fuel (c :: acc) rest

/-- Embedding of `s.split(/\s*\/\s*|\s+>/g)`. -/
def jsSplitSep (s : String) : List String := jsSplitAux s.data.length [] s.data

/-- `categoryName.toLowerCase().split(/\s*\/\s*|\s+>/g)`. -/
def catTokens (name : String) : List String := jsSplitSep (jsToLower name)

/-- The inner-loop test `if (token && lowerTitle.includes(token))`. -/
def tokenHit (lowerTitle tok : String) : Bool := !(tok == "") && jsIncludes lowerTitle tok

/-! ## Resale estimator

`categoryAvgPrices` is a JSON object mapping category names to values; it
is modelled as an association list in key order, with `Option ℚ` values
(`none` models a non-number JSON value, rejected by the
`typeof avg === 'number'` check).  `CONFIG.priceEstimationEnabled` is
passed explicitly. -/

/-- The `for (const categoryName of Object.keys(categoryAvgPrices))` loop of
`estimateResaleValue`: first category one of whose tokens is a non-empty
substring of the lowercased title. -/
def findMatchedCategory (lowerTitle : String) : List (String × Option ℚ) → Option String
  | [] => none
  | (name, _) :: rest =>
    if (catTokens name).any (fun tok => tokenHit lowerTitle tok) then some name
    else findMatchedCategory lowerTitle rest

/-- Object lookup `categoryAvgPrices[matchedCategory]`. -/
def lookupAvg (cat : List (String × Option ℚ)) (name : String) : Option ℚ :=
  match cat.find? (fun kv => kv.1 == name) with
  | some kv => kv.2
  | none => none

/-- The category-average fallback of `estimateResaleValue` (lines 111-131). -/
def estimateFromCats (cat : List (String × Option ℚ)) (title : String) : String :=
  let lowerTitle := jsToLower title
  match findMatchedCategory lowerTitle cat with
  | some name =>
    match lookupAvg cat name with
    | some avg => if decide (0 < avg) then "$" ++ toFixed2 (halfQ avg) else "n/a"
    | none => "n/a"
  | none => "n/a"

/-- `estimateResaleValue(priceStr, title, description)`
(`improved_fb_notifier_images.js`, lines 95-132).  The `description`
argument is accepted but unused, as in the source. -/
def estimateResaleValue (enabled : Bool) (cat : List (String × Option ℚ))
    (priceStr title description : String) : String :=
  if !enabled then ""
  else
    let clean := cleanChars priceStr
    match parseFloatQ clean with
    | some num =>
      if decide (0 < num) then "$" ++ toFixed2 (halfQ num) else estimateFromCats cat title
    | none => estimateFromCats cat title

/-! ## Spec-side estimator definitions

Two further definitions of the category fallback, used to compare the
source against the specification text.  `estimateSpecClaim` follows the
claim wording "tokenize each category name by splitting on `/` or `>`
separators with whitespace trimmed"; `estimateAmendedSpec` follows the
tokenization the source actually performs and phrases the first-match
scan as a single `List.find?`. -/

/-- Split a character list at every separator character. -/
def splitOnSep (p : Char → Bool) : List Char → List (List Char)
  | [] => [[]]
  | c :: rest =>
    if p c then [] :: splitOnSep p rest
    else
      match splitOnSep p rest with
      | [] => [[c]]
      | t :: ts => (c :: t) :: ts

def listTrim (l : List Char) : List Char :=
  ((l.dropWhile isJsWs).reverse.dropWhile isJsWs).reverse

/-- Spec-claim tokenization: split the category name on every `/` or `>`
and trim whitespace from each token. -/
def specTokens (name : String) : List String :=
  (splitOnSep (fun c => c == '/' || c == '>') name.data).map (fun l => String.mk (listTrim l))

/-- Spec-claim category fallback: first category having a non-empty token
that is a case-insensitive substring of the title, half of its average
price when that is a positive number, `"n/a"` otherwise. -/
def specClaimFallback (cat : List (String × Option ℚ)) (title : String) : String :=
  match cat.find? (fun kv => (specTokens kv.1).any
      (fun tok => !(tok == "") && jsIncludes (jsToLower title) (jsToLower tok))) with
  | some kv =>
    match kv.2 with
    | some avg => if decide (0 < avg) then "$" ++ toFixed2 (halfQ avg) else "n/a"
    | none => "n/a"
  | none => "n/a"

/-- The estimator as claim C4 describes it (estimation enabled). -/
def estimateSpecClaim (cat : List (String × Option ℚ)) (priceStr title : String) : String :=
  match parseFloatQ (cleanChars priceStr) with
  | some num =>
    if decide (0 < num) then "$" ++ toFixed2 (halfQ num) else specClaimFallback cat title
  | none => specClaimFallback cat title

/-- Amended category fallback: same as the claim but with the source
tokenization (`catTokens`/`tokenHit`). -/
def amendedFallback (cat : List (String × Option ℚ)) (title : String) : String :=
  match cat.find? (fun kv => (catTokens kv.1).any (fun tok => tokenHit (jsToLower title) tok)) with
  | some kv =>
    match kv.2 with
    | some avg => if decide (0 < avg) then "$" ++ toFixed2 (halfQ avg) else "n/a"
    | none => "n/a"
  | none => "n/a"

/-- The estimator as the amended claim describes it. -/
def estimateAmendedSpec (cat : List (String × Option ℚ)) (priceStr title : String) : String :=
  match parseFloatQ (cleanChars priceStr) with
  | some num =>
    if decide (0 < num) then "$" ++ toFixed2 (halfQ num) else amendedFallback cat title
  | none => amendedFallback cat title

/-! ## Data model

Raw feed nodes: `edges` elements are `val` with optional `node`, whose
`listing` is optional and carries optional `id`, title and formatted
price (the `listing_price?.formatted_amount` optional chain is collapsed
into one optional field).  A JS value that may be `undefined` or `null`
is an `Option`. -/

structure Listing where
  id : Option String
  marketplace_listing_title : Option String
  listing_price_formatted_amount : Option String
deriving DecidableEq

structure Node where
  listing : Option Listing
deriving DecidableEq

/-- One element `val` of `searchData.feed_units.edges`; `val?.node` is the
single optional field. -/
structure Edge where
  node : Option Node
deriving DecidableEq

/-- An entry of `newItems` as built by `scrapeTerm`.  The JS object has
fields `title, price, link, description, image, estimate`; the listing id
is kept as an explicit field here (in the source it is retained only
through `link`, which is the fixed URL template applied to it). -/
structure Item where
  id : Option String
  title : String
  price : String
  link : String
  description : String
  image : String
  estimate : String
deriving DecidableEq

/-- The configuration fields consumed by the deduplication, filtering and
notification pipeline. -/
structure Config where
  minPrice : Option ℚ
  maxPrice : Option ℚ
  includeFreeItems : Bool
  qualityIncludeKeywords : List String
  qualityExcludeKeywords : List String
  fetchListingDetails : Bool
  priceEstimationEnabled : Bool
  activeHoursStart : Nat
  activeHoursEnd : Nat
  recipients : List String
deriving DecidableEq

/-- The pipeline-relevant part of the `CONFIG` object of the source. -/
def CONFIG : Config where
  minPrice := none
  maxPrice := none
  includeFreeItems := true
  qualityIncludeKeywords := []
  qualityExcludeKeywords := []
  fetchListingDetails := true
  priceEstimationEnabled := true
  activeHoursStart := 8
  activeHoursEnd := 22
  recipients := ["kfcoleman77@gmail.com", "mtopyan@gmail.com"]

/-! ## scrapeTerm: per-record filtering -/

/-- JS `x || d` for an optional string `x`: `undefined` and the empty
string are falsy. -/
def jsOr (o : Option String) (d : String) : String :=
  match o with
  | some s => if s == "" then d else s
  | none => d

/-- Template-literal interpolation of a possibly-undefined string. -/
def jsTemplate : Option String → String
  | some s => s
  | none => "undefined"

def linkBase : String := "https://www.facebook.com/marketplace/item/"

/-- The seen-id set: `pastItems.has(id)`. -/
def seenHas (seen : List (Option String)) (x : Option String) : Bool := decide (x ∈ seen)

/-- `pastItems.add(id)`: JS `Set` insertion keeps insertion order and
ignores duplicates. -/
def seenAdd (seen : List (Option String)) (x : Option String) : List (Option String) :=
  if x ∈ seen then seen else seen ++ [x]

/-- The keyword and price guards of the `scrapeTerm` loop
(`improved_fb_notifier_images.js`, lines 234-255), in source order:
exclude keywords and include keywords apply only when the numeric price
is zero, then the free-item policy, then the min/max bounds.  Returns
`false` exactly when one of the `continue` guards fires. -/
def recordPasses (cfg : Config) (title price : String) : Bool :=
  let lowerTitle := jsToLower title
  let numericPrice := parsePrice price
  if decide (numericPrice = 0) &&
      cfg.qualityExcludeKeywords.any (fun k => jsIncludes lowerTitle (jsToLower k)) then false
  else if decide (numericPrice = 0) && decide (0 < cfg.qualityIncludeKeywords.length) &&
      !(cfg.qualityIncludeKeywords.any (fun k => jsIncludes lowerTitle (jsToLower k))) then false
  else if !cfg.includeFreeItems && decide (numericPrice = 0) then false
  else if (match cfg.minPrice with
           | some m => decide (numericPrice < m)
           | none => false) then false
  else if (match cfg.maxPrice with
           | some m => decide (m < numericPrice)
           | none => false) then false
  else true

/-- The full accept test for one edge: a node and listing must be present,
the id must be unseen, and the record must pass `recordPasses`. -/
def edgeAccepted (cfg : Config) (seen : List (Option String)) (e : Edge) : Bool :=
  match e.node with
  | none => false
  | some n =>
    match n.listing with
    | none => false
    | some lst =>
      !(seenHas seen lst.id) &&
        recordPasses cfg (jsOr lst.marketplace_listing_title "Untitled")
          (jsOr lst.listing_price_formatted_amount "Unknown")

/-- The `for (const val of edges)` loop of `scrapeTerm` (lines 225-259):
skip absent nodes/listings, skip already-seen ids, apply the filters, and
on acceptance record the id in the seen set and emit the item (with empty
`description`, `image`, `estimate`, filled in later). -/
def filterEdges (cfg : Config) (seen : List (Option String)) :
    List Edge → List (Option String) × List Item
  | [] => (seen, [])
  | e :: rest =>
    match e.node with
    | none => filterEdges cfg seen rest
    | some n =>
      match n.listing with
      | none => filterEdges cfg seen rest
      | some lst =>
        let id := lst.id
        let title := jsOr lst.marketplace_listing_title "Untitled"
        let price := jsOr lst.listing_price_formatted_amount "Unknown"
        let link := linkBase ++ jsTemplate id
        if seenHas seen id then filterEdges cfg seen rest
        else if recordPasses cfg title price then
          let st := filterEdges cfg (seenAdd seen id) rest
          (st.1, { id := id
                   title := title
                   price := price
                   link := link
                   description := ""
                   image := ""
                   estimate := "" } :: st.2)
        else filterEdges cfg seen rest

/-- The enrichment phase of `scrapeTerm` (lines 262-276).  The external
detail fetcher is a collaborator `details : link → (description, image)`;
when `fetchListingDetails` is on and there are new items each item gets
description, image and an estimate computed from the fetched description,
otherwise only an estimate computed with an empty description. -/
def enrichItems (cfg : Config) (cat : List (String × Option ℚ))
    (details : String → String × String) (newItems : List Item) : List Item :=
  if cfg.fetchListingDetails && decide (0 < newItems.length) then
    newItems.map (fun it =>
      let d := details it.link
      { it with
        description := d.1
        image := d.2
        estimate := estimateResaleValue cfg.priceEstimationEnabled cat it.price it.title d.1 })
  else
    newItems.map (fun it =>
      { it with estimate := estimateResaleValue cfg.priceEstimationEnabled cat it.price it.title "" })

/-- `scrapeTerm` restricted to its pure core: the raw `edges` extracted
from the page stand in for the scraped HTML.  Returns the updated seen
set together with the new items handed to `notify`. -/
def scrapeTerm (cfg : Config) (cat : List (String × Option ℚ))
    (details : String → String × String) (edges : List Edge)
    (seen : List (Option String)) : List (Option String) × List Item :=
  let st := filterEdges cfg seen edges
  (st.1, enrichItems cfg cat details st.2)

/-! ## Persistence: loadPastItems / savePastItems

The file system is abstracted to the outcome of the read+parse step: an
`Except` that is an error when the file is unreadable or unparsable, and
otherwise carries the stored `pastItems` array. -/

/-- `new Set(array)`: dedup keeping first-occurrence order. -/
def mkSet (l : List (Option String)) : List (Option String) := l.foldl seenAdd []

/-- `loadPastItems` (lines 134-145): a read or parse failure is caught and
yields the empty set; otherwise the stored array becomes a `Set`. -/
def loadPastItems : Except Unit (List (Option String)) → List (Option String)
  | .error _ => []
  | .ok l => mkSet l

/-- `savePastItems` (lines 147-154): `Array.from(set)` in insertion order
is what is written back. -/
def savePastItems (s : List (Option String)) : List (Option String) := s

/-! ## run

One run processes the configured terms sequentially; each term yields
either raw edges or a thrown exception (navigation failure), modelled as
`Except`.  The `try`/`catch` around each term logs and continues.  After
the loop, `savePastItems` is called once; `run` returns the list of
save-call arguments so that "persisted exactly once" is observable. -/

def runLoop (cfg : Config) (cat : List (String × Option ℚ))
    (details : String → String × String) :
    List (String × Except Unit (List Edge)) → List (Option String) →
      List (Option String) × List (String × List Item)
  | [], seen => (seen, [])
  | (_, .error _) :: rest, seen => runLoop cfg cat details rest seen
  | (t, .ok edges) :: rest, seen =>
    let r := scrapeTerm cfg cat details edges seen
    let rec2 := runLoop cfg cat details rest r.1
    (rec2.1, if decide (0 < r.2.length) then (t, r.2) :: rec2.2 else rec2.2)

/-- `run` (lines 342-360): load the seen set, process every term with a
per-term `try`/`catch`, then persist the updated set once.  Returns the
notified batches and the list of `savePastItems` invocations. -/
def run (cfg : Config) (cat : List (String × Option ℚ))
    (details : String → String × String)
    (file : Except Unit (List (Option String)))
    (terms : List (String × Except Unit (List Edge))) :
    List (String × List Item) × List (List (Option String)) :=
  let seen0 := loadPastItems file
  let r := runLoop cfg cat details terms seen0
  (r.2, [savePastItems r.1])

/-! ## notify

`notify(term, items)` (lines 280-340).  Effects are made explicit: the
current local hour and timestamp string are inputs, the buffer file is
`Option String` (`none` = file absent), and the result is the list of
`sendMail` invocations together with the new buffer-file state. -/

/-- One `transporter.sendMail` invocation; `toAddr` models the `to` field
of `mailOptions` (Mathlib reserves the identifier `to`). -/
structure Send where
  toAddr : String
  subject : String
  text : String
  html : String
deriving DecidableEq

/-- One buffered line: `` `${it.title} - ${it.price} - ${it.link}` ``. -/
def bufferLine (it : Item) : String := it.title ++ " - " ++ it.price ++ " - " ++ it.link

/-- One text-body line: `` `${it.title} – ${it.price}\n${it.link}` ``. -/
def textLine (it : Item) : String := it.title ++ " – " ++ it.price ++ "\n" ++ it.link

/-- The block appended to the buffer file outside the active window. -/
def bufferBlock (now term : String) (items : List Item) : String :=
  "\n\n[" ++ now ++ "] Results for \"" ++ term ++ "\":\n" ++
    joinWith "\n" (items.map bufferLine)

/-- The HTML fragment built for one item (lines 291-300). -/
def htmlItem (it : Item) : String :=
  "<div style=\"margin-bottom:1em;\">\n      " ++
    (if !(it.image == "") then
      "<img src=\"" ++ it.image ++ "\" alt=\"Image\" style=\"max-width:200px; display:block; margin-bottom:0.5em;\">"
     else "") ++
    "\n      <strong>" ++ it.title ++ "</strong><br>\n      <span>Price: " ++ it.price ++
    "</span><br>\n      " ++
    (if !(it.estimate == "") then
      "<span>Estimated resale value: " ++ it.estimate ++ "</span><br>"
     else "") ++ "\n      " ++
    (if !(it.description == "") then
      "<span>" ++
        String.mk ((it.description.data.map
          (fun c => if c == '\n' then ['<', 'b', 'r', '>'] else [c])).flatten) ++
        "</span><br>"
     else "") ++
    "\n      <a href=\"" ++ it.link ++ "\">View on Facebook</a>\n    </div>"

/-- `htmlBody`: the concatenation over all items. -/
def buildHtmlBody (items : List Item) : String := joinWith "" (items.map htmlItem)

/-- `notify`: no-op on an empty list; outside `activeHours` (inclusive both
ends) append a timestamped block to the buffer file and send nothing;
inside the window prepend a non-blank buffer (wrapped with a
"Previous notifications" header) to the new text body, truncate the
buffer file, and send one mail per configured recipient. -/
def notify (cfg : Config) (now : String) (hour : Nat) (term : String)
    (items : List Item) (buf : Option String) : List Send × Option String :=
  if decide (items.length = 0) then ([], buf)
  else
    let withinWindow := decide (cfg.activeHoursStart ≤ hour) && decide (hour ≤ cfg.activeHoursEnd)
    let htmlBody := buildHtmlBody items
    if !withinWindow then
      ([], some (buf.getD "" ++ bufferBlock now term items))
    else
      let pair : String × Option String :=
        match buf with
        | some b =>
          (if decide (0 < (jsTrim b).length) then "Previous notifications:\n" ++ b ++ "\n\n"
           else "", some "")
        | none => ("", none)
      let textBody := pair.1 ++ joinWith "\n\n" (items.map textLine)
      let subject := Nat.repr items.length ++ " new result" ++
        (if decide (1 < items.length) then "s" else "") ++ " for \"" ++ term ++ "\""
      (cfg.recipients.map (fun r =>
        { toAddr := r
          subject := subject
          text := textBody
          html := htmlBody }), pair.2)

/-- `x` occurs as a contiguous substring of `s` (witnessed decomposition);
used to state "the body contains the buffered and the new content". -/
def strContains (s x : String) : Prop := ∃ u v : String, s = u ++ (x ++ v)

/-! ## Concrete fixtures used by witnesses and counterexamples -/

/-- A detail fetcher returning empty description and image (the failure
fallback of `fetchListingDetails`). -/
def sampleDetails : String → String × String := fun _ => ("", "")

/-- A well-formed raw listing with id `42`. -/
def listing42 : Listing where
  id := some "42"
  marketplace_listing_title := some "Sofa"
  listing_price_formatted_amount := some "$15"

/-- A well-formed raw node with id `42`. -/
def e42 : Edge := { node := some { listing := some listing42 } }

/-- A raw listing whose `id` field is missing. -/
def listingNoId : Listing where
  id := none
  marketplace_listing_title := some "Sofa"
  listing_price_formatted_amount := some "$5"

/-- A raw node whose listing is present but whose `id` field is missing. -/
def edgeNoId : Edge := { node := some { listing := some listingNoId } }

/-- A free raw listing with id `7`. -/
def listingFree : Listing where
  id := some "7"
  marketplace_listing_title := some "Free Couch"
  listing_price_formatted_amount := some "$0"

/-- A free listing node with id `7`. -/
def freeEdge : Edge := { node := some { listing := some listingFree } }

/-- `CONFIG` with free items excluded. -/
def cfgNoFree : Config := { CONFIG with includeFreeItems := false }

/-- `CONFIG` with the price window `[10, 20]`. -/
def cfg1020 : Config := { CONFIG with minPrice := some 10, maxPrice := some 20 }

/-- `CONFIG` with `excludeKeywords = ["broken"]`. -/
def cfgBroken : Config := { CONFIG with qualityExcludeKeywords := ["broken"] }

/-- A concrete new item, as emitted by the filtering loop for `e42`. -/
def sampleItem : Item where
  id := some "42"
  title := "Sofa"
  price := "$15"
  link := "https://www.facebook.com/marketplace/item/42"
  description := ""
  image := ""
  estimate := ""

/-! ## Helper lemmas -/

theorem strData_append (a b : String) : (a ++ b).data = a.data ++ b.data := rfl

theorem strEmpty_append (s : String) : "" ++ s = s := rfl

theorem strAppend_empty (s : String) : s ++ "" = s := by
  cases s with
  | mk l => exact congrArg String.mk (List.append_nil l)

/-- A string containing a non-whitespace character has a non-empty trim. -/
theorem jsTrim_length_pos {s : String} {c : Char} (hc : c ∈ s.data) (hw : isJsWs c = false) :
    0 < (jsTrim s).length := by
  have h1 : s.data.dropWhile isJsWs ≠ [] := by
    intro h
    exact absurd (List.dropWhile_eq_nil_iff.mp h c hc) (by simp [hw])
  have hhd : isJsWs ((s.data.dropWhile isJsWs).head h1) = false :=
    List.head_dropWhile_not isJsWs s.data h1
  have hmem : (s.data.dropWhile isJsWs).head h1 ∈ (s.data.dropWhile isJsWs).reverse :=
    List.mem_reverse.mpr (List.head_mem h1)
  have h2 : (s.data.dropWhile isJsWs).reverse.dropWhile isJsWs ≠ [] := by
    intro h
    exact absurd (List.dropWhile_eq_nil_iff.mp h _ hmem) (by simp [hhd])
  have : 0 < ((s.data.dropWhile isJsWs).reverse.dropWhile isJsWs).reverse.length := by
    rw [List.length_reverse]
    exact List.length_pos.mpr h2
  simpa [jsTrim, String.length] using this

/-- Every element of a joined list occurs inside the join. -/
theorem joinWith_decomp (sep : String) :
    ∀ (l : List String) (x : String), x ∈ l →
      ∃ u v : String, joinWith sep l = u ++ x ++ v := by
  intro l
  induction l with
  | nil => intro x hx; cases hx
  | cons a t ih =>
    intro x hx
    cases t with
    | nil =>
      rcases List.mem_singleton.mp hx with rfl
      exact ⟨"", "", by simp [joinWith, strAppend_empty]⟩
    | cons b t2 =>
      rcases List.mem_cons.mp hx with rfl | hx2
      · exact ⟨"", sep ++ joinWith sep (b :: t2), by simp [joinWith, String.append_assoc]⟩
      · rcases ih x hx2 with ⟨u, v, hu⟩
        refine ⟨a ++ sep ++ u, v, ?_⟩
        simp [joinWith, hu, String.append_assoc]

/-- `halfQ` is multiplication by `0.5`, as in the source. -/
theorem halfQ_eq_mul_half (q : ℚ) : halfQ q = q * (1 / 2) := by
  rw [halfQ, Rat.mkRat_eq_div]
  conv_rhs => rw [← Rat.num_div_den q]
  push_cast
  ring

theorem strContains_self (s : String) : strContains s s :=
  ⟨"", "", by rw [strAppend_empty, strEmpty_append]⟩

theorem strContains_appendLeft {s x : String} (t : String) (h : strContains s x) :
    strContains (t ++ s) x := by
  rcases h with ⟨u, v, rfl⟩
  exact ⟨t ++ u, v, by rw [String.append_assoc]⟩

theorem strContains_appendRight {s x : String} (t : String) (h : strContains s x) :
    strContains (s ++ t) x := by
  rcases h with ⟨u, v, rfl⟩
  refine ⟨u, v ++ t, ?_⟩
  rw [String.append_assoc, String.append_assoc]

theorem strContains_joinWith {sep x : String} {l : List String} (h : x ∈ l) :
    strContains (joinWith sep l) x := by
  rcases joinWith_decomp sep l x h with ⟨u, v, hu⟩
  exact ⟨u, v, by rw [hu, String.append_assoc]⟩

theorem mem_seenAdd {s : List (Option String)} {x y : Option String} :
    x ∈ seenAdd s y ↔ x ∈ s ∨ x = y := by
  unfold seenAdd
  split
  · rename_i h
    constructor
    · exact Or.inl
    · rintro (hx | rfl)
      · exact hx
      · exact h
  · simp [List.mem_append]

theorem self_mem_seenAdd (s : List (Option String)) (y : Option String) :
    y ∈ seenAdd s y := mem_seenAdd.mpr (Or.inr rfl)

theorem mem_seenAdd_of_mem {s : List (Option String)} {x : Option String}
    (h : x ∈ s) (y : Option String) : x ∈ seenAdd s y := mem_seenAdd.mpr (Or.inl h)

theorem mem_foldl_seenAdd :
    ∀ (l acc : List (Option String)) (x : Option String),
      x ∈ l.foldl seenAdd acc ↔ x ∈ acc ∨ x ∈ l := by
  intro l
  induction l with
  | nil => intro acc x; simp
  | cons a t ih =>
    intro acc x
    rw [List.foldl_cons, ih, mem_seenAdd]
    simp only [List.mem_cons]
    tauto

theorem mem_mkSet {l : List (Option String)} {x : Option String} :
    x ∈ mkSet l ↔ x ∈ l := by
  simp [mkSet, mem_foldl_seenAdd]

/-! ### filterEdges invariants -/

/-- The seen set only ever grows during the `scrapeTerm` loop. -/
theorem filterEdges_seen_mono (cfg : Config) :
    ∀ (edges : List Edge) (seen : List (Option String)) (x : Option String),
      x ∈ seen → x ∈ (filterEdges cfg seen edges).1 := by
  intro edges
  induction edges with
  | nil => intro seen x hx; simpa [filterEdges] using hx
  | cons e rest ih =>
    intro seen x hx
    rcases e with ⟨node⟩
    cases node with
    | none => simpa [filterEdges] using ih seen x hx
    | some n =>
      rcases n with ⟨listing⟩
      cases listing with
      | none => simpa [filterEdges] using ih seen x hx
      | some lst =>
        by_cases hs : seenHas seen lst.id
        · simpa [filterEdges, hs] using ih seen x hx
        · by_cases hp : recordPasses cfg (jsOr lst.marketplace_listing_title "Untitled")
              (jsOr lst.listing_price_formatted_amount "Unknown")
          · simpa [filterEdges, hs, hp] using
              ih (seenAdd seen lst.id) x (mem_seenAdd_of_mem hx lst.id)
          · simpa [filterEdges, hs, hp] using ih seen x hx

/-- Every emitted item has its id recorded in the final seen set. -/
theorem filterEdges_out_mem_seen (cfg : Config) :
    ∀ (edges : List Edge) (seen : List (Option String)) (it : Item),
      it ∈ (filterEdges cfg seen edges).2 → it.id ∈ (filterEdges cfg seen edges).1 := by
  intro edges
  induction edges with
  | nil => intro seen it hit; simp [filterEdges] at hit
  | cons e rest ih =>
    intro seen it hit
    rcases e with ⟨node⟩
    cases node with
    | none =>
      simp only [filterEdges] at hit ⊢
      exact ih seen it hit
    | some n =>
      rcases n with ⟨listing⟩
      cases listing with
      | none =>
        simp only [filterEdges] at hit ⊢
        exact ih seen it hit
      | some lst =>
        by_cases hs : seenHas seen lst.id
        · simp only [filterEdges, hs, if_true] at hit ⊢
          exact ih seen it hit
        · by_cases hp : recordPasses cfg (jsOr lst.marketplace_listing_title "Untitled")
              (jsOr lst.listing_price_formatted_amount "Unknown")
          · simp only [filterEdges, hs, hp] at hit ⊢
            simp only [Bool.false_eq_true, if_false, if_true, List.mem_cons] at hit
            rcases hit with rfl | hit2
            · exact filterEdges_seen_mono cfg rest (seenAdd seen lst.id) _
                (self_mem_seenAdd seen lst.id)
            · exact ih (seenAdd seen lst.id) it hit2
          · simp only [filterEdges, hs, hp] at hit ⊢
            simp only [Bool.false_eq_true, if_false] at hit ⊢
            exact ih seen it hit

/-- An id already in the seen set is never emitted by the loop. -/
theorem filterEdges_seen_excluded (cfg : Config) :
    ∀ (edges : List Edge) (seen : List (Option String)) (x : Option String),
      x ∈ seen → ∀ it ∈ (filterEdges cfg seen edges).2, it.id ≠ x := by
  intro edges
  induction edges with
  | nil => intro seen x _ it hit; simp [filterEdges] at hit
  | cons e rest ih =>
    intro seen x hx it hit
    rcases e with ⟨node⟩
    cases node with
    | none =>
      simp only [filterEdges] at hit
      exact ih seen x hx it hit
    | some n =>
      rcases n with ⟨listing⟩
      cases listing with
      | none =>
        simp only [filterEdges] at hit
        exact ih seen x hx it hit
      | some lst =>
        by_cases hs : seenHas seen lst.id
        · simp only [filterEdges, hs, if_true] at hit
          exact ih seen x hx it hit
        · by_cases hp : recordPasses cfg (jsOr lst.marketplace_listing_title "Untitled")
              (jsOr lst.listing_price_formatted_amount "Unknown")
          · simp only [filterEdges, hs, hp, Bool.false_eq_true, if_false, if_true,
              List.mem_cons] at hit
            rcases hit with rfl | hit2
            · intro hxx
              have hlx : lst.id = x := hxx
              exact hs (by simp [seenHas, hlx, hx])
            · exact ih (seenAdd seen lst.id) x (mem_seenAdd_of_mem hx lst.id) it hit2
          · simp only [filterEdges, hs, hp, Bool.false_eq_true, if_false] at hit
            exact ih seen x hx it hit

/-- Enrichment does not change the listing ids of the emitted items. -/
theorem enrichItems_map_id (cfg : Config) (cat : List (String × Option ℚ))
    (details : String → String × String) (items : List Item) :
    (enrichItems cfg cat details items).map Item.id = items.map Item.id := by
  unfold enrichItems
  split <;> simp [List.map_map, Function.comp]

theorem scrapeTerm_fst (cfg : Config) (cat : List (String × Option ℚ))
    (details : String → String × String) (edges : List Edge) (seen : List (Option String)) :
    (scrapeTerm cfg cat details edges seen).1 = (filterEdges cfg seen edges).1 := rfl

theorem scrapeTerm_map_id (cfg : Config) (cat : List (String × Option ℚ))
    (details : String → String × String) (edges : List Edge) (seen : List (Option String)) :
    (scrapeTerm cfg cat details edges seen).2.map Item.id =
      (filterEdges cfg seen edges).2.map Item.id := by
  unfold scrapeTerm
  exact enrichItems_map_id cfg cat details _

/-! ### Estimator lemmas -/

/-- The imperative first-match loop agrees with `List.find?` on keys. -/
theorem find?_map_fst_eq_findMatched (lt : String) :
    ∀ cat : List (String × Option ℚ),
      Option.map Prod.fst
          (cat.find? (fun kv => (catTokens kv.1).any (fun tok => tokenHit lt tok))) =
        findMatchedCategory lt cat := by
  intro cat
  induction cat with
  | nil => rfl
  | cons kv rest ih =>
    rcases kv with ⟨nm, v⟩
    by_cases hm : ((catTokens nm).any (fun tok => tokenHit lt tok)) = true
    · rw [List.find?_cons_of_pos rest hm]
      simp [findMatchedCategory, hm]
    · rw [List.find?_cons_of_neg rest hm]
      simp only [findMatchedCategory]
      rw [if_neg hm]
      exact ih

/-- A name returned by the first-match loop has a matching token. -/
theorem findMatched_tokens {lt name : String} :
    ∀ {cat : List (String × Option ℚ)}, findMatchedCategory lt cat = some name →
      (catTokens name).any (fun tok => tokenHit lt tok) = true := by
  intro cat
  induction cat with
  | nil => intro h; cases h
  | cons kv rest ih =>
    intro h
    rcases kv with ⟨nm, v⟩
    by_cases hm : (catTokens nm).any (fun tok => tokenHit lt tok)
    · simp only [findMatchedCategory, hm, if_true, Option.some.injEq] at h
      subst h
      exact hm
    · simp only [findMatchedCategory, hm, Bool.false_eq_true, if_false] at h
      exact ih h

/-- Looking the found key back up in the object returns the found value. -/
theorem lookupAvg_of_find? (lt : String) :
    ∀ {cat : List (String × Option ℚ)} {nm0 : String} {v0 : Option ℚ},
      cat.find? (fun kv => (catTokens kv.1).any (fun tok => tokenHit lt tok)) =
          some (nm0, v0) →
        lookupAvg cat nm0 = v0 := by
  intro cat
  induction cat with
  | nil => intro nm0 v0 h; cases h
  | cons kv rest ih =>
    intro nm0 v0 h
    rcases kv with ⟨nm, v⟩
    by_cases hm : ((catTokens nm).any (fun tok => tokenHit lt tok)) = true
    · rw [List.find?_cons_of_pos rest hm] at h
      injection h with h2
      injection h2 with ha hb
      subst ha; subst hb
      unfold lookupAvg
      rw [List.find?_cons_of_pos rest (by simp)]
    · rw [List.find?_cons_of_neg rest hm] at h
      have hp0 : ((catTokens nm0).any (fun tok => tokenHit lt tok)) = true := by
        have h2 := List.find?_some h
        simpa using h2
      have hne : (nm == nm0) = false := by
        cases hb : (nm == nm0) with
        | false => rfl
        | true =>
          have he : nm = nm0 := beq_iff_eq.mp hb
          rw [he] at hm
          exact absurd hp0 hm
      have hstep : lookupAvg ((nm, v) :: rest) nm0 = lookupAvg rest nm0 := by
        unfold lookupAvg
        rw [List.find?_cons_of_neg rest (by simp [hne])]
      rw [hstep]
      exact ih h

/-- The source fallback loop equals the `find?`-phrased amended fallback. -/
theorem estimateFromCats_eq_amendedFallback (cat : List (String × Option ℚ)) (t : String) :
    estimateFromCats cat t = amendedFallback cat t := by
  cases hf : cat.find? (fun kv => (catTokens kv.1).any (fun tok => tokenHit (jsToLower t) tok)) with
  | none =>
    have hm : findMatchedCategory (jsToLower t) cat = none := by
      rw [← find?_map_fst_eq_findMatched, hf]
      rfl
    simp only [estimateFromCats, amendedFallback, hf, hm]
  | some kv =>
    rcases kv with ⟨nm0, v0⟩
    have hm : findMatchedCategory (jsToLower t) cat = some nm0 := by
      rw [← find?_map_fst_eq_findMatched, hf]
      rfl
    have hl : lookupAvg cat nm0 = v0 := lookupAvg_of_find? (jsToLower t) hf
    simp only [estimateFromCats, amendedFallback, hf, hm, hl]

/-- The full source estimator equals the amended-claim estimator when
estimation is enabled. -/
theorem estimateResaleValue_eq_amendedSpec (cat : List (String × Option ℚ))
    (p ti d : String) :
    estimateResaleValue true cat p ti d = estimateAmendedSpec cat p ti := by
  unfold estimateResaleValue estimateAmendedSpec
  simp only [Bool.not_true, Bool.false_eq_true, if_false]
  cases parseFloatQ (cleanChars p) with
  | none => exact estimateFromCats_eq_amendedFallback cat ti
  | some num =>
    by_cases h : decide (0 < num) = true
    · simp [h]
    · simp only [Bool.not_eq_true] at h
      simp [h, estimateFromCats_eq_amendedFallback cat ti]

/-! ### Parse lemmas -/

theorem parseFloatQ_nonneg : ∀ {l : List Char} {q : ℚ}, parseFloatQ l = some q → 0 ≤ q := by
  intro l q h
  simp only [parseFloatQ] at h
  split at h
  · split at h
    · cases h
    · injection h with h2
      subst h2
      rw [Rat.mkRat_eq_div]
      positivity
  · split at h
    · cases h
    · injection h with h2
      subst h2
      exact Nat.cast_nonneg _

theorem parsePrice_nonneg (s : String) : 0 ≤ parsePrice s := by
  simp only [parsePrice]
  split
  · exact le_refl 0
  · split
    · exact le_refl 0
    · rename_i q hq
      exact parseFloatQ_nonneg hq

/-! ### run lemmas -/

/-- A term whose processing throws contributes nothing: the loop behaves as
if the term were absent. -/
theorem runLoop_error_transparent (cfg : Config) (cat : List (String × Option ℚ))
    (details : String → String × String) (t : String) :
    ∀ (xs ys : List (String × Except Unit (List Edge))) (seen : List (Option String)),
      runLoop cfg cat details (xs ++ (t, Except.error ()) :: ys) seen =
        runLoop cfg cat details (xs ++ ys) seen := by
  intro xs
  induction xs with
  | nil => intro ys seen; rfl
  | cons x rest ih =>
    intro ys seen
    rcases x with ⟨t0, out⟩
    cases out with
    | error e => simpa [runLoop] using ih ys seen
    | ok edges => simp [runLoop, ih]

/-! ### notify branch equations -/

/-- Outside the active window, `notify` sends nothing and appends the
timestamped block to the buffer file. -/
theorem notify_outside_eq (cfg : Config) (now : String) (hour : Nat) (term : String)
    (items : List Item) (buf : Option String)
    (hne : items ≠ [])
    (hout : ¬(cfg.activeHoursStart ≤ hour ∧ hour ≤ cfg.activeHoursEnd)) :
    notify cfg now hour term items buf =
      ([], some (buf.getD "" ++ bufferBlock now term items)) := by
  have hlen : decide (items.length = 0) = false :=
    decide_eq_false (fun h => hne (List.length_eq_zero.mp h))
  have hw : (decide (cfg.activeHoursStart ≤ hour) && decide (hour ≤ cfg.activeHoursEnd))
      = false := by
    rw [← Bool.decide_and]
    exact decide_eq_false hout
  simp [notify, hlen, hw, hne]

/-- Inside the active window with a non-blank buffer file, `notify` sends
one mail per recipient whose text body is the wrapped buffer followed by
the new lines, and truncates the buffer file. -/
theorem notify_inside_eq (cfg : Config) (now : String) (hour : Nat) (term : String)
    (items : List Item) (b : String)
    (hne : items ≠ [])
    (hin : cfg.activeHoursStart ≤ hour ∧ hour ≤ cfg.activeHoursEnd)
    (hbuf : 0 < (jsTrim b).length) :
    notify cfg now hour term items (some b) =
      (cfg.recipients.map (fun r =>
        { toAddr := r
          subject := Nat.repr items.length ++ " new result" ++
            (if 1 < items.length then "s" else "") ++ " for \"" ++ term ++ "\""
          text := ("Previous notifications:\n" ++ b ++ "\n\n") ++
            joinWith "\n\n" (items.map textLine)
          html := buildHtmlBody items }), some "") := by
  have hlen : decide (items.length = 0) = false :=
    decide_eq_false (fun h => hne (List.length_eq_zero.mp h))
  have hw : (decide (cfg.activeHoursStart ≤ hour) && decide (hour ≤ cfg.activeHoursEnd))
      = true := by
    rw [← Bool.decide_and]
    exact decide_eq_true hin
  have ht : decide (0 < (jsTrim b).length) = true := decide_eq_true hbuf
  simp [notify, hlen, hw, ht, hne]

/-! ## Claim theorems -/

/-- Claim C1: an id already present in the persisted seen set when its
record reaches the filtering loop is skipped outright — the equation holds
for every configuration, so no keyword or price rule is ever consulted for
it — and consequently an id emitted by one call to the filtering stage is
never emitted again by a later call running on the resulting seen set;
membership in the store also survives a save/load round trip, covering the
across-runs case. -/
theorem dedup_skips_seen_and_never_renotifies :
    (∀ (cfg : Config) (seen : List (Option String)) (e : Edge) (rest : List Edge)
        (n : Node) (lst : Listing),
        e.node = some n → n.listing = some lst → lst.id ∈ seen →
        filterEdges cfg seen (e :: rest) = filterEdges cfg seen rest) ∧
    (∀ (cfg cfg2 : Config) (cat cat2 : List (String × Option ℚ))
        (d d2 : String → String × String) (edges1 edges2 : List Edge)
        (seen : List (Option String)) (x : Option String),
        x ∈ (scrapeTerm cfg cat d edges1 seen).2.map Item.id →
        x ∉ (scrapeTerm cfg2 cat2 d2 edges2
              (scrapeTerm cfg cat d edges1 seen).1).2.map Item.id) ∧
    (∀ (s : List (Option String)) (x : Option String),
        x ∈ loadPastItems (Except.ok (savePastItems s)) ↔ x ∈ s) := by
  refine ⟨?_, ?_, ?_⟩
  · intro cfg seen e rest n lst he hl hmem
    rcases e with ⟨node⟩
    cases he
    rcases n with ⟨listing⟩
    cases hl
    have hs : seenHas seen lst.id = true := by simp [seenHas, hmem]
    simp [filterEdges, hs]
  · intro cfg cfg2 cat cat2 d d2 edges1 edges2 seen x hx
    rw [scrapeTerm_map_id] at hx
    rcases List.mem_map.mp hx with ⟨it, hit, rfl⟩
    have h1 : it.id ∈ (filterEdges cfg seen edges1).1 :=
      filterEdges_out_mem_seen cfg edges1 seen it hit
    intro hx2
    rw [scrapeTerm_map_id, scrapeTerm_fst] at hx2
    rcases List.mem_map.mp hx2 with ⟨it2, hit2, hid⟩
    exact absurd hid (filterEdges_seen_excluded cfg2 edges2 _ it.id h1 it2 hit2)
  · intro s x
    simp [loadPastItems, savePastItems, mem_mkSet]

/-- Witness for C1: the id `42`, accepted and emitted by a first call on an
empty store, is absent from the output of a second call on the updated
store. -/
theorem dedup_skips_seen_and_never_renotifies_witness :
    some "42" ∈ (scrapeTerm CONFIG [] sampleDetails [e42] []).2.map Item.id ∧
    some "42" ∉ (scrapeTerm CONFIG [] sampleDetails [e42]
        (scrapeTerm CONFIG [] sampleDetails [e42] []).1).2.map Item.id :=
  ⟨by decide,
    dedup_skips_seen_and_never_renotifies.2.1 CONFIG CONFIG [] [] sampleDetails
      sampleDetails [e42] [e42] [] (some "42") (by decide)⟩

/-- Claim C3 counterexample: a raw node whose listing is present but whose
id is missing is NOT skipped: on the default configuration it is emitted
(with link built from the undefined id) and the undefined id is inserted
into the dedup store. -/
theorem missing_id_record_emitted :
    (filterEdges CONFIG [] [edgeNoId]).2 ≠ [] ∧
    (filterEdges CONFIG [] [edgeNoId]).1 = [none] ∧
    (filterEdges CONFIG [] [edgeNoId]).2.map Item.link =
      ["https://www.facebook.com/marketplace/item/undefined"] :=
  ⟨by decide, by decide, by decide⟩

/-- Claim C3 (amended): a raw node lacking a node or a listing is skipped
and contributes nothing; a node whose listing lacks an id is processed
normally — it is normalized with an undefined id, the undefined id enters
the dedup store on acceptance (so a second such node is dedup-skipped),
and the record can reach the notification output. -/
theorem missing_listing_skipped_missing_id_processed :
    (∀ (cfg : Config) (seen : List (Option String)) (rest : List Edge),
        filterEdges cfg seen ({ node := none } :: rest) = filterEdges cfg seen rest) ∧
    (∀ (cfg : Config) (seen : List (Option String)) (rest : List Edge),
        filterEdges cfg seen ({ node := some { listing := none } } :: rest) =
          filterEdges cfg seen rest) ∧
    (filterEdges CONFIG [] [edgeNoId]).2.map Item.id = [none] ∧
    (filterEdges CONFIG [] [edgeNoId, edgeNoId]).2.length = 1 :=
  ⟨fun _ _ _ => rfl, fun _ _ _ => rfl, by decide, by decide⟩

/-- Claim C9: a record that is skipped as already seen or rejected by any
keyword or price rule leaves the loop state — in particular the dedup
store — exactly as it was; concretely, the free listing `7` is rejected
with `includeFreeItems = false` leaving the store empty, and the very same
record is accepted, recorded and emitted under the default
configuration. -/
theorem rejected_record_leaves_store_unchanged :
    (∀ (cfg : Config) (seen : List (Option String)) (e : Edge) (rest : List Edge),
        edgeAccepted cfg seen e = false →
        filterEdges cfg seen (e :: rest) = filterEdges cfg seen rest) ∧
    (filterEdges cfgNoFree [] [freeEdge] = ([], []) ∧
      (filterEdges CONFIG [] [freeEdge]).1 = [some "7"] ∧
      (filterEdges CONFIG [] [freeEdge]).2.map Item.id = [some "7"]) := by
  constructor
  · intro cfg seen e rest h
    rcases e with ⟨node⟩
    cases node with
    | none => rfl
    | some n =>
      rcases n with ⟨listing⟩
      cases listing with
      | none => rfl
      | some lst =>
        by_cases hs : seenHas seen lst.id = true
        · simp [filterEdges, hs]
        · have hb : seenHas seen lst.id = false := by
            simpa using hs
          simp only [edgeAccepted, hb, Bool.not_false, Bool.true_and] at h
          simp [filterEdges, hb, h]
  · exact ⟨by decide, by decide, by decide⟩

/-- Witness for C9: the free listing rejected under `cfgNoFree` leaves the
loop exactly as if the record were absent. -/
theorem rejected_record_leaves_store_unchanged_witness :
    edgeAccepted cfgNoFree [] freeEdge = false ∧
    filterEdges cfgNoFree [] [freeEdge] = filterEdges cfgNoFree [] [] :=
  ⟨by decide,
    rejected_record_leaves_store_unchanged.1 cfgNoFree [] freeEdge [] (by decide)⟩

/-- Claim C2: a `notify` call with non-empty items whose local hour lies
outside `activeHours` (inclusive both ends) sends nothing and only appends
the items to the persisted buffer; a subsequent in-window `notify` call
with non-empty items sends exactly one mail per configured recipient whose
text body contains the whole buffered content (including every buffered
item line) and every new item line, and leaves the persisted buffer
empty. -/
theorem notify_buffers_then_flushes
    (cfg : Config) (now1 now2 term1 term2 : String) (items1 items2 : List Item)
    (h1 h2 : Nat) (buf : Option String)
    (hne1 : items1 ≠ []) (hne2 : items2 ≠ [])
    (hout : ¬(cfg.activeHoursStart ≤ h1 ∧ h1 ≤ cfg.activeHoursEnd))
    (hin : cfg.activeHoursStart ≤ h2 ∧ h2 ≤ cfg.activeHoursEnd) :
    (notify cfg now1 h1 term1 items1 buf).1 = [] ∧
    (notify cfg now1 h1 term1 items1 buf).2 =
      some (buf.getD "" ++ bufferBlock now1 term1 items1) ∧
    (notify cfg now2 h2 term2 items2
        (notify cfg now1 h1 term1 items1 buf).2).1.map Send.toAddr = cfg.recipients ∧
    (∀ s ∈ (notify cfg now2 h2 term2 items2 (notify cfg now1 h1 term1 items1 buf).2).1,
      strContains s.text (buf.getD "" ++ bufferBlock now1 term1 items1) ∧
      (∀ it ∈ items1, strContains s.text (bufferLine it)) ∧
      (∀ it ∈ items2, strContains s.text (textLine it))) ∧
    (notify cfg now2 h2 term2 items2 (notify cfg now1 h1 term1 items1 buf).2).2 = some "" := by
  have e1 := notify_outside_eq cfg now1 h1 term1 items1 buf hne1 hout
  have hR1 : 'R' ∈ (bufferBlock now1 term1 items1).data := by
    unfold bufferBlock
    rw [strData_append]
    apply List.mem_append_left
    rw [strData_append]
    apply List.mem_append_left
    rw [strData_append]
    apply List.mem_append_left
    rw [strData_append]
    apply List.mem_append_right
    decide
  have hRB : 'R' ∈ (buf.getD "" ++ bufferBlock now1 term1 items1).data := by
    rw [strData_append]
    exact List.mem_append_right _ hR1
  have htrim : 0 < (jsTrim (buf.getD "" ++ bufferBlock now1 term1 items1)).length :=
    jsTrim_length_pos hRB (by decide)
  have e2 := notify_inside_eq cfg now2 h2 term2 items2
    (buf.getD "" ++ bufferBlock now1 term1 items1) hne2 hin htrim
  have hb2 : (notify cfg now1 h1 term1 items1 buf).2 =
      some (buf.getD "" ++ bufferBlock now1 term1 items1) := by rw [e1]
  refine ⟨by rw [e1], hb2, ?_, ?_, ?_⟩
  · rw [hb2, e2]
    rw [List.map_map]
    exact List.map_id'' (fun r => rfl) cfg.recipients
  · intro s hs
    rw [hb2, e2] at hs
    rcases List.mem_map.mp hs with ⟨r, _, rfl⟩
    refine ⟨?_, ?_, ?_⟩
    · exact strContains_appendRight _ (strContains_appendRight "\n\n"
        (strContains_appendLeft "Previous notifications:\n"
          (strContains_self (buf.getD "" ++ bufferBlock now1 term1 items1))))
    · intro it hit
      have hline : strContains (joinWith "\n" (items1.map bufferLine)) (bufferLine it) :=
        strContains_joinWith (List.mem_map_of_mem bufferLine hit)
      have hblock : strContains (bufferBlock now1 term1 items1) (bufferLine it) := by
        unfold bufferBlock
        exact strContains_appendLeft _ hline
      exact strContains_appendRight _ (strContains_appendRight "\n\n"
        (strContains_appendLeft "Previous notifications:\n"
          (strContains_appendLeft (buf.getD "") hblock)))
    · intro it hit
      exact strContains_appendLeft _
        (strContains_joinWith (List.mem_map_of_mem textLine hit))
  · rw [hb2, e2]

/-- Witness for C2: with the source configuration, a batch buffered at hour
23 is flushed by an in-window call at hour 10: no mail is sent by the
first call, the second sends to both configured recipients, and the buffer
ends empty. -/
theorem notify_buffers_then_flushes_witness :
    (notify CONFIG "T1" 23 "phone" [sampleItem] none).1 = [] ∧
    (notify CONFIG "T2" 10 "phone" [sampleItem]
        (notify CONFIG "T1" 23 "phone" [sampleItem] none).2).1.map Send.toAddr =
      CONFIG.recipients ∧
    (notify CONFIG "T2" 10 "phone" [sampleItem]
        (notify CONFIG "T1" 23 "phone" [sampleItem] none).2).2 = some "" := by
  have h := notify_buffers_then_flushes CONFIG "T1" "T2" "phone" "phone"
    [sampleItem] [sampleItem] 23 10 none (by decide) (by decide) (by decide) (by decide)
  exact ⟨h.1, h.2.2.1, h.2.2.2.2⟩

/-- Claim C4 counterexample: with the mapping `{"Toys>Games": 300}` and the
free listing titled "Board Games", the claim's tokenization (split on `/`
or `>` with whitespace trimmed) predicts the estimate `"$150.00"`, but the
source regex `\s*\/\s*|\s+>` does not split `>` that is not preceded by
whitespace, so `estimateResaleValue` finds no category and returns
`"n/a"`. -/
theorem estimate_tokenization_counterexample :
    estimateSpecClaim [("Toys>Games", some 300)] "Free" "Board Games" = "$150.00" ∧
    estimateResaleValue true [("Toys>Games", some 300)] "Free" "Board Games" "" = "n/a" ∧
    ("$150.00" : String) ≠ "n/a" :=
  ⟨by decide, by decide, by decide⟩

/-- Claim C4 (amended): with estimation enabled, a positive parsed price
yields half of it, `"$"`-prefixed and 2-decimal formatted; otherwise the
first category whose tokenization — splitting the lowercased name on `/`
with surrounding whitespace absorbed, or on whitespace followed by `>`
(whitespace after `>` is kept on the next token, and `>` not preceded by
whitespace does not split) — has a non-empty token occurring in the
lowercased title supplies half its average price when that is a positive
number; in every other case the result is the literal `"n/a"`.  The
claim's worked examples hold as stated. -/
theorem estimate_matches_amended_spec :
    (∀ (cat : List (String × Option ℚ)) (p t d : String),
        estimateResaleValue true cat p t d = estimateAmendedSpec cat p t) ∧
    estimateResaleValue true [] "$100" "x" "" = "$50.00" ∧
    estimateResaleValue true [("Electronics", some 300)] "Free" "Electronics Deal" ""
      = "$150.00" ∧
    estimateResaleValue true [] "Free" "x" "" = "n/a" ∧
    estimateResaleValue true [("Electronics", some 0)] "Free" "Electronics Deal" "" = "n/a" :=
  ⟨estimateResaleValue_eq_amendedSpec, by decide, by decide, by decide, by decide⟩

/-- Claim C5: the exclude rule rejects any zero-priced record whose
lowercased title contains an exclude keyword, for every configuration (in
particular for both values of `includeFreeItems`); the include rule
likewise rejects zero-priced records matching no include keyword; and for
positively-priced records the decision is entirely independent of both
keyword lists.  Concretely, a free "Broken Phone" is rejected with
`excludeKeywords = ["broken"]` whatever `includeFreeItems` is, while the
same title at $5 passes. -/
theorem keyword_rules_only_for_free_items :
    (∀ (cfg : Config) (title price : String),
        parsePrice price = 0 →
        cfg.qualityExcludeKeywords.any
            (fun k => jsIncludes (jsToLower title) (jsToLower k)) = true →
        recordPasses cfg title price = false) ∧
    (∀ (cfg : Config) (title price : String),
        parsePrice price = 0 →
        0 < cfg.qualityIncludeKeywords.length →
        cfg.qualityIncludeKeywords.any
            (fun k => jsIncludes (jsToLower title) (jsToLower k)) = false →
        recordPasses cfg title price = false) ∧
    (∀ (cfg : Config) (inc exc inc2 exc2 : List String) (title price : String),
        0 < parsePrice price →
        recordPasses
            { cfg with qualityIncludeKeywords := inc, qualityExcludeKeywords := exc }
            title price =
          recordPasses
            { cfg with qualityIncludeKeywords := inc2, qualityExcludeKeywords := exc2 }
            title price) ∧
    (∀ b : Bool,
        recordPasses { cfgBroken with includeFreeItems := b } "Broken Phone" "Free" = false) ∧
    recordPasses cfgBroken "Broken Phone" "$5" = true := by
  refine ⟨?_, ?_, ?_, ?_, by decide⟩
  · intro cfg title price hp hx
    simp [recordPasses, hp, hx]
  · intro cfg title price hp hlen hinc
    by_cases hx : cfg.qualityExcludeKeywords.any
        (fun k => jsIncludes (jsToLower title) (jsToLower k)) = true
    · simp [recordPasses, hp, hx]
    · simp [recordPasses, hp, hx, hinc, hlen]
  · intro cfg inc exc inc2 exc2 title price hp
    have h0 : decide (parsePrice price = 0) = false :=
      decide_eq_false (ne_of_gt hp)
    simp [recordPasses, h0]
  · intro b
    cases b <;> decide

/-- Witness for C5: the free "Broken Phone" listing is rejected by the
exclude-keyword rule. -/
theorem keyword_rules_only_for_free_items_witness :
    parsePrice "Free" = 0 ∧
    recordPasses cfgBroken "Broken Phone" "Free" = false :=
  ⟨by decide,
    keyword_rules_only_for_free_items.1 cfgBroken "Broken Phone" "Free" (by decide) (by decide)⟩

/-- Claim C6: with both bounds set and a positive numeric price (so the
free-item and keyword rules cannot fire), the record passes iff
`minPrice ≤ numericPrice ∧ numericPrice ≤ maxPrice` — both bounds
inclusive; concretely with bounds `[10, 20]`, prices $10 and $20 pass
while $9.99 and $20.01 are rejected. -/
theorem price_bounds_inclusive :
    (∀ (cfg : Config) (m M p : ℚ) (title price : String),
        cfg.minPrice = some m → cfg.maxPrice = some M → parsePrice price = p → 0 < p →
        (recordPasses cfg title price = true ↔ (m ≤ p ∧ p ≤ M))) ∧
    recordPasses cfg1020 "x" "$10" = true ∧
    recordPasses cfg1020 "x" "$20" = true ∧
    recordPasses cfg1020 "x" "$9.99" = false ∧
    recordPasses cfg1020 "x" "$20.01" = false := by
  refine ⟨?_, by decide, by decide, by decide, by decide⟩
  intro cfg m M p title price hm hM hp hpos
  have hne : p ≠ 0 := ne_of_gt hpos
  have h0 : decide (parsePrice price = 0) = false := by
    rw [hp]
    exact decide_eq_false hne
  simp [recordPasses, h0, hm, hM, hp, not_lt, hne]

/-- Witness for C6: the lower bound is attained — $10 passes under bounds
`[10, 20]`. -/
theorem price_bounds_inclusive_witness :
    recordPasses cfg1020 "x" "$10" = true :=
  (price_bounds_inclusive.1 cfg1020 10 20 10 "x" "$10" rfl rfl (by decide)
    (by decide)).mpr (by decide)

/-- Claim C7: the numeric-price parse is a total function of the string; it
returns 0 on an empty or non-numeric remainder after stripping, its value
is always non-negative, and the four spec examples hold:
`"" ↦ 0`, `"Free" ↦ 0`, `"$0" ↦ 0`, `"$123.45" ↦ 123.45`. -/
theorem parsePrice_total_and_examples :
    parsePrice "" = 0 ∧
    parsePrice "Free" = 0 ∧
    parsePrice "$0" = 0 ∧
    parsePrice "$123.45" = 123.45 ∧
    (∀ s : String, 0 ≤ parsePrice s) ∧
    (∀ s : String, cleanChars s = [] → parsePrice s = 0) ∧
    (∀ s : String, parseFloatQ (cleanChars s) = none → parsePrice s = 0) := by
  refine ⟨by decide, by decide, by decide, ?_, parsePrice_nonneg, ?_, ?_⟩
  · have h : parsePrice "$123.45" = mkRat 12345 100 := by decide
    rw [h, Rat.mkRat_eq_div]
    norm_num
  · intro s h
    simp [parsePrice, h]
  · intro s h
    simp only [parsePrice, h]
    split <;> rfl

/-- Claim C8: a term whose processing throws is caught: the run behaves
exactly as if that term were absent, so later terms are still processed;
`savePastItems` is invoked exactly once per run, whatever the term
outcomes; and a dedup-store read or parse failure yields the empty
in-memory set (by totality of `loadPastItems`, nothing is raised). -/
theorem per_term_errors_contained :
    (∀ (cfg : Config) (cat : List (String × Option ℚ))
        (details : String → String × String) (t : String)
        (xs ys : List (String × Except Unit (List Edge)))
        (seen : List (Option String)),
        runLoop cfg cat details (xs ++ (t, Except.error ()) :: ys) seen =
          runLoop cfg cat details (xs ++ ys) seen) ∧
    (∀ (cfg : Config) (cat : List (String × Option ℚ))
        (details : String → String × String)
        (file : Except Unit (List (Option String)))
        (terms : List (String × Except Unit (List Edge))),
        (run cfg cat details file terms).2.length = 1) ∧
    loadPastItems (Except.error ()) = [] := by
  refine ⟨?_, ?_, rfl⟩
  · intro cfg cat details t xs ys seen
    exact runLoop_error_transparent cfg cat details t xs ys seen
  · intro cfg cat details file terms
    rfl

/-- Claim C10: with price estimation disabled the estimator returns the
empty string on every input — which is distinct from the failure sentinel
`"n/a"` and from every dollar-prefixed estimate. -/
theorem estimation_disabled_returns_empty :
    (∀ (cat : List (String × Option ℚ)) (p t d : String),
        estimateResaleValue false cat p t d = "") ∧
    ("" : String) ≠ "n/a" ∧
    (∀ q : ℚ, ("" : String) ≠ "$" ++ toFixed2 q) := by
  refine ⟨fun _ _ _ _ => rfl, by decide, ?_⟩
  intro q h
  have hlen := congrArg String.length h
  rw [String.length_append] at hlen
  have h0 : ("" : String).length = 0 := rfl
  have h1 : ("$" : String).length = 1 := rfl
  rw [h0, h1] at hlen
  omega

end FBNotifier
